import Mathlib

/-!
Shallow embedding of the planar-constraint engine
(`opencog/generate/PlanarConstraints.{h,cc}`) and of the link-creation
operation of the policy layer (`opencog/generate/PlanarCallback.cc`).

Points (`Handle`s) are modelled as natural numbers: the engine only
compares them for identity and order (they are keys of a `std::map`).
The `std::map<Handle, size_t>` position index is modelled as a sorted
association list, built exclusively through `mapInsert` (insert-or-assign
keeping keys sorted), so that equal map contents have equal
representations, exactly as `std::map` equality behaves.
-/

namespace PlanarGen

/-- Insert-or-assign into a key-sorted association list; models
`std::map::operator[]` assignment. -/
def mapInsert (k v : Nat) : List (Nat × Nat) → List (Nat × Nat)
  | [] => [(k, v)]
  | e :: rest =>
    if k < e.1 then (k, v) :: e :: rest
    else if k = e.1 then (k, v) :: rest
    else e :: mapInsert k v rest

/-- Lookup in the association list; models `std::map::find` (with
`none` playing the role of the `end()` iterator). -/
def mapFind (k : Nat) : List (Nat × Nat) → Option Nat
  | [] => none
  | e :: rest => if k = e.1 then some e.2 else mapFind k rest

/-- The loop body of `PlanarConstraints::update_position_map`: starting
at index `i`, assign each point of the list its index. -/
def upmFrom : Nat → List Nat → List (Nat × Nat) → List (Nat × Nat)
  | _, [], m => m
  | i, p :: rest, m => upmFrom (i + 1) rest (mapInsert p i m)

/-- Models `PlanarConstraints::update_position_map`: clear the map, then map
each point of the sequence to its offset (later occurrences override
earlier ones, as repeated `operator[]` assignment does). -/
def update_position_map (seq : List Nat) : List (Nat × Nat) :=
  upmFrom 0 seq []

/-- The private state of a `PlanarConstraints` instance: `_sequence`,
`_position_map` and `_links` (links stored as position pairs). -/
structure PlanarState where
  sequence : List Nat
  position_map : List (Nat × Nat)
  links : List (Nat × Nat)
deriving DecidableEq

/-- Models `PlanarConstraints::clear`: empties all three components. -/
def clearState : PlanarState := ⟨[], [], []⟩

/-- Models `PlanarConstraints::set_sequence`: replace the sequence, rebuild the
position map, clear the links. -/
def set_sequence (_s : PlanarState) (seq : List Nat) : PlanarState :=
  ⟨seq, update_position_map seq, []⟩

/-- Models `PlanarConstraints::append_point`: push the point at the end and
record its position (`_sequence.size() - 1` after the push). -/
def append_point (s : PlanarState) (p : Nat) : PlanarState :=
  ⟨s.sequence ++ [p],
   mapInsert p ((s.sequence ++ [p]).length - 1) s.position_map,
   s.links⟩

/-- The normalization step of `PlanarConstraints::links_cross`: swap the
two positions when the first is larger. -/
def normalize_link (i j : Nat) : Nat × Nat :=
  if i > j then (j, i) else (i, j)

/-- Models `PlanarConstraints::links_cross`: after normalizing both pairs,
test `(i1 < i2 && i2 < j1 && j1 < j2) || (i2 < i1 && i1 < j2 && j2 < j1)`. -/
def links_cross (i1 j1 i2 j2 : Nat) : Bool :=
  let p := normalize_link i1 j1
  let q := normalize_link i2 j2
  (decide (p.1 < q.1) && decide (q.1 < p.2) && decide (p.2 < q.2)) ||
  (decide (q.1 < p.1) && decide (p.1 < q.2) && decide (q.2 < p.2))

/-- Models `PlanarConstraints::is_planar_link`: if either endpoint is missing
from the position map, log a warning and return `false`; otherwise
return `false` iff the candidate crosses some stored link. -/
def is_planar_link (s : PlanarState) (f t : Nat) : Bool :=
  match mapFind f s.position_map, mapFind t s.position_map with
  | some fp, some tp => s.links.all fun l => ! links_cross fp tp l.1 l.2
  | _, _ => false

/-- Models `PlanarConstraints::add_link`: check `is_planar_link`, re-find both
positions, append the position pair on success. The returned `Bool` is
the C++ return value. -/
def add_link (s : PlanarState) (f t : Nat) : PlanarState × Bool :=
  if ! is_planar_link s f t then (s, false)
  else
    match mapFind f s.position_map, mapFind t s.position_map with
    | some fp, some tp =>
        (⟨s.sequence, s.position_map, s.links ++ [(fp, tp)]⟩, true)
    | _, _ => (s, false)

/-- Models `PlanarConstraints::remove_link`: erase every stored pair matching
the two positions in either orientation; no-op when a point is missing. -/
def remove_link (s : PlanarState) (f t : Nat) : PlanarState :=
  match mapFind f s.position_map, mapFind t s.position_map with
  | some fp, some tp =>
      ⟨s.sequence, s.position_map,
       s.links.filter fun l =>
         ! ((decide (l.1 = fp) && decide (l.2 = tp)) ||
            (decide (l.1 = tp) && decide (l.2 = fp)))⟩
  | _, _ => s

/-- Models `PlanarConstraints::get_position`: the offset as an `Int`, `-1`
when the point is absent. -/
def get_position (s : PlanarState) (p : Nat) : Int :=
  match mapFind p s.position_map with
  | some i => (i : Int)
  | none => -1

/-- The pairwise loop of `PlanarConstraints::is_planar`: true iff no
two stored links (taken at distinct list indices) cross. -/
def pairs_planar : List (Nat × Nat) → Bool
  | [] => true
  | l :: rest =>
    (rest.all fun m => ! links_cross l.1 l.2 m.1 m.2) && pairs_planar rest

/-- Models `PlanarConstraints::is_planar`. -/
def is_planar (s : PlanarState) : Bool := pairs_planar s.links

/-- The pairwise loop of `PlanarConstraints::get_crossing_count`. -/
def crossing_count_list : List (Nat × Nat) → Nat
  | [] => 0
  | l :: rest =>
    (rest.filter fun m => links_cross l.1 l.2 m.1 m.2).length +
      crossing_count_list rest

/-- Models `PlanarConstraints::get_crossing_count`. -/
def get_crossing_count (s : PlanarState) : Nat := crossing_count_list s.links

/-- Models `PlanarConstraints::get_link_count`. -/
def get_link_count (s : PlanarState) : Nat := s.links.length

/-- Models `std::swap(_sequence[i], _sequence[i+1])`: exchange the adjacent
elements at indices `i` and `i + 1` (identity when out of range, which
the optimizer loop never hits). -/
def swapAt : List Nat → Nat → List Nat
  | a :: b :: rest, 0 => b :: a :: rest
  | a :: rest, n + 1 => a :: swapAt rest n
  | l, _ => l

/-- One iteration of the inner `for` loop of
`PlanarConstraints::optimize_sequence`: tentatively swap positions `i`
and `i+1`, rebuild the position map, recount crossings; keep the swap on
strict improvement, otherwise swap back and rebuild again. The
accumulator carries the state, `current_crossings`, and `improved`. -/
def optStep (acc : PlanarState × Nat × Bool) (i : Nat) :
    PlanarState × Nat × Bool :=
  let s := acc.1
  let seq1 := swapAt s.sequence i
  let s1 : PlanarState := ⟨seq1, update_position_map seq1, s.links⟩
  let newc := get_crossing_count s1
  if newc < acc.2.1 then (s1, newc, true)
  else
    (⟨swapAt seq1 i, update_position_map (swapAt seq1 i), s.links⟩,
     acc.2.1, acc.2.2)

/-- One full left-to-right pass of the `while` loop of
`optimize_sequence`: reset `improved`, read the current crossing count,
then run the inner loop over `i < _sequence.size() - 1`. -/
def optPass (s : PlanarState) : PlanarState × Bool :=
  let r := (List.range (s.sequence.length - 1)).foldl optStep
    (s, get_crossing_count s, false)
  (r.1, r.2.2)

/-- The `while (improved && iteration < max_iterations)` loop of
`optimize_sequence`, with the remaining pass budget as fuel; the second
component is the number of passes executed (the C++ `iteration`
counter). -/
def optRun : Nat → PlanarState → PlanarState × Nat
  | 0, s => (s, 0)
  | fuel + 1, s =>
    let r := optPass s
    if r.2 then
      let r2 := optRun fuel r.1
      (r2.1, r2.2 + 1)
    else (r.1, 1)

/-- Models `PlanarConstraints::optimize_sequence`, whose pass budget is
`_sequence.size() * _sequence.size()`. -/
def optimize_sequence (s : PlanarState) : PlanarState :=
  (optRun (s.sequence.length * s.sequence.length) s).1

/-- The number of passes `optimize_sequence` executes (the value the
source logs as `iteration` on completion). -/
def optimize_iterations (s : PlanarState) : Nat :=
  (optRun (s.sequence.length * s.sequence.length) s).2

/-- Engine states reachable from a cleared engine by the public
mutating operations of `PlanarConstraints`. -/
inductive Reachable : PlanarState → Prop where
  | cleared : Reachable clearState
  | clear_step (s : PlanarState) : Reachable s → Reachable clearState
  | set_seq (s : PlanarState) (seq : List Nat) :
      Reachable s → Reachable (set_sequence s seq)
  | append (s : PlanarState) (p : Nat) :
      Reachable s → Reachable (append_point s p)
  | add (s : PlanarState) (f t : Nat) :
      Reachable s → Reachable (add_link s f t).1
  | remove (s : PlanarState) (f t : Nat) :
      Reachable s → Reachable (remove_link s f t)
  | optimize (s : PlanarState) :
      Reachable s → Reachable (optimize_sequence s)

/-- The state of a `PlanarCallback` that `make_link` touches:
`_constraints`, `_current_sequence`, and the two policy flags. -/
structure CallbackState where
  constraints : PlanarState
  current_sequence : List Nat
  strict_planarity : Bool
  auto_optimize : Bool
deriving DecidableEq

/-- Models `PlanarCallback::make_link` restricted to its observable effect on
the callback state; the returned `Bool` records whether the returned
`Handle` is defined (`true`) or `Handle::UNDEFINED` (`false`). In the
source, a non-planar connection is rejected only in strict mode; the
return value of `_constraints.add_link` is ignored (logged only); link
materialization is delegated outward; afterwards, if auto-optimize is on
and the crossing count is positive, the sequence is optimized and
`_current_sequence` refreshed. -/
def make_link (cs : CallbackState) (f t : Nat) : CallbackState × Bool :=
  if ! is_planar_link cs.constraints f t && cs.strict_planarity then
    (cs, false)
  else
    let c1 := (add_link cs.constraints f t).1
    if cs.auto_optimize && decide (0 < get_crossing_count c1) then
      let c2 := optimize_sequence c1
      (⟨c2, c2.sequence, cs.strict_planarity, cs.auto_optimize⟩, true)
    else
      (⟨c1, cs.current_sequence, cs.strict_planarity, cs.auto_optimize⟩, true)

/-- Modelled from the spec's words for the crossing relation: after
normalizing each pair so the smaller position comes first, exactly one
of the second link's endpoints lies strictly inside the open interval
spanned by the first link. -/
def crosses_spec_exactly_one (i1 j1 i2 j2 : Nat) : Bool :=
  let a := min i1 j1
  let b := max i1 j1
  let c := min i2 j2
  let d := max i2 j2
  ((decide (a < c) && decide (c < b)) != (decide (a < d) && decide (d < b)))

/-- The relation between two stored links of being free of a crossing. -/
def NoCross (x y : Nat × Nat) : Prop :=
  links_cross x.1 x.2 y.1 y.2 = false

theorem normalize_link_fst (i j : Nat) : (normalize_link i j).1 = min i j := by
  unfold normalize_link
  split <;> omega

theorem normalize_link_snd (i j : Nat) : (normalize_link i j).2 = max i j := by
  unfold normalize_link
  split <;> omega

theorem links_cross_char (i1 j1 i2 j2 : Nat) :
    links_cross i1 j1 i2 j2 = true ↔
      (min i1 j1 < min i2 j2 ∧ min i2 j2 < max i1 j1 ∧ max i1 j1 < max i2 j2) ∨
      (min i2 j2 < min i1 j1 ∧ min i1 j1 < max i2 j2 ∧ max i2 j2 < max i1 j1) := by
  simp only [links_cross, normalize_link_fst, normalize_link_snd,
    Bool.or_eq_true, Bool.and_eq_true, decide_eq_true_eq]
  tauto

theorem links_cross_symm (a b c d : Nat) :
    links_cross a b c d = links_cross c d a b := by
  rw [Bool.eq_iff_iff, links_cross_char, links_cross_char]
  tauto

theorem mapFind_mapInsert_self (k v : Nat) (m : List (Nat × Nat)) :
    mapFind k (mapInsert k v m) = some v := by
  induction m with
  | nil => simp [mapInsert, mapFind]
  | cons e rest ih =>
    unfold mapInsert
    split
    · simp [mapFind]
    · split
      · simp [mapFind]
      · have hne : k ≠ e.1 := by omega
        simp [mapFind, hne, ih]

theorem mapFind_mapInsert_ne (k q v : Nat) (m : List (Nat × Nat))
    (h : q ≠ k) : mapFind q (mapInsert k v m) = mapFind q m := by
  induction m with
  | nil => simp [mapInsert, mapFind, h]
  | cons e rest ih =>
    unfold mapInsert
    split
    · simp [mapFind, h]
    · split
      · rename_i hlt heq
        by_cases hq : q = e.1
        · omega
        · simp [mapFind, h, hq]
      · simp only [mapFind]
        split
        · rfl
        · exact ih

theorem pairs_planar_iff (l : List (Nat × Nat)) :
    pairs_planar l = true ↔ l.Pairwise NoCross := by
  induction l with
  | nil => simp [pairs_planar]
  | cons x rest ih =>
    simp only [pairs_planar, Bool.and_eq_true, List.all_eq_true,
      List.pairwise_cons, ih, Bool.not_eq_true', NoCross]

theorem crossing_count_eq_zero_iff (l : List (Nat × Nat)) :
    crossing_count_list l = 0 ↔ l.Pairwise NoCross := by
  induction l with
  | nil => simp [crossing_count_list]
  | cons x rest ih =>
    simp only [crossing_count_list, Nat.add_eq_zero, List.length_eq_zero,
      List.filter_eq_nil_iff, List.pairwise_cons, ih, NoCross,
      Bool.not_eq_true]

theorem upmFrom_append (seq : List Nat) (p : Nat) :
    ∀ (i : Nat) (m : List (Nat × Nat)),
      upmFrom i (seq ++ [p]) m = mapInsert p (i + seq.length) (upmFrom i seq m) := by
  induction seq with
  | nil => intro i m; simp [upmFrom]
  | cons q rest ih =>
    intro i m
    have h1 : i + (q :: rest).length = i + 1 + rest.length := by
      simp only [List.length_cons]
      omega
    simp only [List.cons_append, upmFrom, List.append_eq]
    rw [ih, h1]

theorem upm_append (seq : List Nat) (p : Nat) :
    update_position_map (seq ++ [p]) =
      mapInsert p seq.length (update_position_map seq) := by
  unfold update_position_map
  rw [upmFrom_append]
  simp

theorem upmFrom_find_not_mem (q : Nat) (seq : List Nat) :
    ∀ (i : Nat) (m : List (Nat × Nat)), q ∉ seq →
      mapFind q (upmFrom i seq m) = mapFind q m := by
  induction seq with
  | nil => intro i m _; rfl
  | cons p rest ih =>
    intro i m h
    have hq : q ≠ p := fun hqp => h (hqp ▸ List.mem_cons_self p rest)
    have hr : q ∉ rest := fun hr => h (List.mem_cons_of_mem p hr)
    simp only [upmFrom, ih _ _ hr, mapFind_mapInsert_ne _ _ _ _ hq]

theorem upmFrom_find_mem (seq : List Nat) :
    ∀ (i : Nat) (m : List (Nat × Nat)) (j : Nat) (hj : j < seq.length),
      seq.Nodup →
      mapFind (seq.get ⟨j, hj⟩) (upmFrom i seq m) = some (i + j) := by
  induction seq with
  | nil => intro i m j hj _; simp at hj
  | cons p rest ih =>
    intro i m j hj hnd
    rw [List.nodup_cons] at hnd
    cases j with
    | zero =>
      simp only [List.get, upmFrom]
      rw [upmFrom_find_not_mem _ _ _ _ hnd.1, mapFind_mapInsert_self]
      simp
    | succ n =>
      simp only [List.get, upmFrom]
      have := ih (i + 1) (mapInsert p i m) n (by simpa using hj) hnd.2
      rw [this]
      exact congrArg some (by omega)

theorem is_planar_link_some (s : PlanarState) (f t : Nat)
    (h : is_planar_link s f t = true) :
    ∃ fp tp, mapFind f s.position_map = some fp ∧
      mapFind t s.position_map = some tp := by
  cases hf : mapFind f s.position_map with
  | none =>
    cases ht : mapFind t s.position_map with
    | none => simp [is_planar_link, hf, ht] at h
    | some tp => simp [is_planar_link, hf, ht] at h
  | some fp =>
    cases ht : mapFind t s.position_map with
    | none => simp [is_planar_link, hf, ht] at h
    | some tp => exact ⟨fp, tp, rfl, rfl⟩

theorem is_planar_link_eq_all (s : PlanarState) (f t fp tp : Nat)
    (hf : mapFind f s.position_map = some fp)
    (ht : mapFind t s.position_map = some tp) :
    is_planar_link s f t =
      (s.links.all fun l => ! links_cross fp tp l.1 l.2) := by
  simp [is_planar_link, hf, ht]

theorem add_link_of_planar (s : PlanarState) (f t : Nat)
    (h : is_planar_link s f t = true) :
    ∃ fp tp, mapFind f s.position_map = some fp ∧
      mapFind t s.position_map = some tp ∧
      add_link s f t =
        (⟨s.sequence, s.position_map, s.links ++ [(fp, tp)]⟩, true) := by
  obtain ⟨fp, tp, hf, ht⟩ := is_planar_link_some s f t h
  exact ⟨fp, tp, hf, ht, by simp [add_link, h, hf, ht]⟩

theorem add_link_of_not_planar (s : PlanarState) (f t : Nat)
    (h : is_planar_link s f t = false) :
    add_link s f t = (s, false) := by
  simp [add_link, h]

theorem pairwise_append_one (l : List (Nat × Nat)) (x : Nat × Nat)
    (h : ∀ m ∈ l, links_cross x.1 x.2 m.1 m.2 = false) :
    ((l ++ [x]).Pairwise NoCross ↔ l.Pairwise NoCross) := by
  rw [List.pairwise_append]
  constructor
  · rintro ⟨h1, _, _⟩
    exact h1
  · intro h1
    refine ⟨h1, List.pairwise_singleton _ _, ?_⟩
    intro a ha b hb
    rw [List.mem_singleton] at hb
    subst hb
    unfold NoCross
    rw [links_cross_symm]
    exact h a ha

theorem optStep_links (acc : PlanarState × Nat × Bool) (i : Nat) :
    (optStep acc i).1.links = acc.1.links := by
  simp only [optStep]
  split <;> rfl

theorem foldl_optStep_links (l : List Nat) :
    ∀ acc : PlanarState × Nat × Bool,
      ((l.foldl optStep acc).1).links = acc.1.links := by
  induction l with
  | nil => intro acc; rfl
  | cons a l ih =>
    intro acc
    rw [List.foldl_cons, ih, optStep_links]

theorem optPass_links (s : PlanarState) : ((optPass s).1).links = s.links := by
  simp only [optPass]
  exact foldl_optStep_links _ _

theorem optRun_links (fuel : Nat) :
    ∀ s : PlanarState, ((optRun fuel s).1).links = s.links := by
  induction fuel with
  | zero => intro s; rfl
  | succ n ih =>
    intro s
    simp only [optRun]
    split
    · rw [ih, optPass_links]
    · exact optPass_links s

theorem optimize_links (s : PlanarState) :
    (optimize_sequence s).links = s.links := by
  unfold optimize_sequence
  exact optRun_links _ s

theorem reachable_pairwise (s : PlanarState) (h : Reachable s) :
    s.links.Pairwise NoCross := by
  induction h with
  | cleared => exact List.Pairwise.nil
  | clear_step _ _ _ => exact List.Pairwise.nil
  | set_seq _ seq _ _ => exact List.Pairwise.nil
  | append s p _ ih => exact ih
  | add s f t _ ih =>
    by_cases hp : is_planar_link s f t = true
    · obtain ⟨fp, tp, hf, ht, heq⟩ := add_link_of_planar s f t hp
      rw [heq]
      rw [is_planar_link_eq_all s f t fp tp hf ht] at hp
      rw [List.all_eq_true] at hp
      refine (pairwise_append_one s.links (fp, tp) ?_).mpr ih
      intro m hm
      have := hp m hm
      simpa [Bool.not_eq_true'] using this
    · rw [Bool.not_eq_true] at hp
      rw [add_link_of_not_planar s f t hp]
      exact ih
  | remove s f t _ ih =>
    unfold remove_link
    cases hf : mapFind f s.position_map with
    | none => exact ih
    | some fp =>
      cases ht : mapFind t s.position_map with
      | none => exact ih
      | some tp => exact ih.sublist (List.filter_sublist _)
  | optimize s _ ih =>
    rw [optimize_links]
    exact ih

theorem swapAt_swapAt (l : List Nat) : ∀ i, swapAt (swapAt l i) i = l := by
  induction l with
  | nil => intro i; rfl
  | cons a l ih =>
    intro i
    cases i with
    | zero =>
      cases l with
      | nil => rfl
      | cons b rest => rfl
    | succ n =>
      simp only [swapAt]
      rw [ih]

theorem optStep_fixed (s : PlanarState)
    (hs : s.position_map = update_position_map s.sequence)
    (c : Nat) (hc : c = crossing_count_list s.links) (i : Nat) :
    optStep (s, c, false) i = (s, c, false) := by
  simp only [optStep]
  rw [if_neg]
  · rw [swapAt_swapAt, ← hs]
  · rw [hc]
    exact lt_irrefl _

theorem foldl_fixed_of (l : List Nat) (b : PlanarState × Nat × Bool)
    (h : ∀ i, optStep b i = b) : l.foldl optStep b = b := by
  induction l with
  | nil => rfl
  | cons a l ih => rw [List.foldl_cons, h, ih]

theorem optPass_fixed (s : PlanarState)
    (hs : s.position_map = update_position_map s.sequence) :
    optPass s = (s, false) := by
  have h := foldl_fixed_of (List.range (s.sequence.length - 1))
    (s, get_crossing_count s, false)
    (fun i => optStep_fixed s hs _ rfl i)
  simp only [optPass]
  rw [h]

theorem optRun_not_improved (fuel : Nat) (s : PlanarState)
    (h : optPass s = (s, false)) : (optRun (fuel + 1) s).1 = s := by
  simp [optRun, h]

theorem optimize_id_of_consistent (s : PlanarState)
    (hs : s.position_map = update_position_map s.sequence) :
    optimize_sequence s = s := by
  unfold optimize_sequence
  cases hfuel : s.sequence.length * s.sequence.length with
  | zero => rfl
  | succ n => exact optRun_not_improved n s (optPass_fixed s hs)

theorem reachable_consistent (s : PlanarState) (h : Reachable s) :
    s.position_map = update_position_map s.sequence := by
  induction h with
  | cleared => rfl
  | clear_step _ _ _ => rfl
  | set_seq _ seq _ _ => rfl
  | append s p _ ih =>
    show mapInsert p ((s.sequence ++ [p]).length - 1) s.position_map =
      update_position_map (s.sequence ++ [p])
    rw [upm_append, ih]
    congr 1
    simp
  | add s f t _ ih =>
    by_cases hp : is_planar_link s f t = true
    · obtain ⟨fp, tp, hf, ht, heq⟩ := add_link_of_planar s f t hp
      rw [heq]
      exact ih
    · rw [Bool.not_eq_true] at hp
      rw [add_link_of_not_planar s f t hp]
      exact ih
  | remove s f t _ ih =>
    unfold remove_link
    cases hf : mapFind f s.position_map with
    | none => exact ih
    | some fp =>
      cases ht : mapFind t s.position_map with
      | none => exact ih
      | some tp => exact ih
  | optimize s _ ih =>
    rw [optimize_id_of_consistent s ih]
    exact ih

theorem optRun_count_le (fuel : Nat) : ∀ s : PlanarState, (optRun fuel s).2 ≤ fuel := by
  induction fuel with
  | zero => intro s; exact Nat.le_refl 0
  | succ n ih =>
    intro s
    simp only [optRun]
    split
    · exact Nat.succ_le_succ (ih _)
    · exact Nat.succ_le_succ (Nat.zero_le n)

/-- C1: `add_link(from, to)` returns true and appends exactly the one
position pair of the two points to the link set iff `is_planar_link`
holds at call time; whenever it returns false, the sequence, the
position index, and the link set are left exactly as before. -/
theorem C1_add_link_atomic (s : PlanarState) (f t : Nat) :
    (((add_link s f t).2 = true) ↔ is_planar_link s f t = true) ∧
    ((add_link s f t).2 = true →
      (add_link s f t).1.sequence = s.sequence ∧
      (add_link s f t).1.position_map = s.position_map ∧
      ∃ fp tp, mapFind f s.position_map = some fp ∧
        mapFind t s.position_map = some tp ∧
        (add_link s f t).1.links = s.links ++ [(fp, tp)]) ∧
    ((add_link s f t).2 = false → (add_link s f t).1 = s) := by
  by_cases hp : is_planar_link s f t = true
  · obtain ⟨fp, tp, hf, ht, heq⟩ := add_link_of_planar s f t hp
    rw [heq]
    refine ⟨by simp [hp], fun _ => ⟨rfl, rfl, fp, tp, hf, ht, rfl⟩, ?_⟩
    intro hfalse
    simp at hfalse
  · rw [Bool.not_eq_true] at hp
    rw [add_link_of_not_planar s f t hp]
    refine ⟨by simp [hp], ?_, fun _ => rfl⟩
    intro htrue
    simp at htrue

theorem C1_witness :
    (add_link (set_sequence clearState [0, 1, 2, 3]) 0 2).2 = true ∧
    (add_link (add_link (set_sequence clearState [0, 1, 2, 3]) 0 2).1 1 3).1 =
      (add_link (set_sequence clearState [0, 1, 2, 3]) 0 2).1 :=
  ⟨(C1_add_link_atomic (set_sequence clearState [0, 1, 2, 3]) 0 2).1.mpr
      (by decide),
   (C1_add_link_atomic
      (add_link (set_sequence clearState [0, 1, 2, 3]) 0 2).1 1 3).2.2
      (by decide)⟩

/-- C2 counterexample: for the links with normalized positions (0,2)
and (1,2), exactly one endpoint of the second link (namely 1) lies
strictly inside the open interval (0,2), yet `links_cross` returns
false; the claim's two characterizations disagree when the links share
an endpoint, and the code follows the chain-inequality form. -/
theorem C2_counterexample :
    links_cross 0 2 1 2 = false ∧ crosses_spec_exactly_one 0 2 1 2 = true := by
  decide

/-- C2 (amended): `links_cross(i1, j1, i2, j2)` returns true iff, after
normalizing each pair so its smaller position comes first, the chain
`i1 < i2 < j1 < j2` or the chain `i2 < i1 < j2 < j1` holds (sharing an
endpoint never counts as crossing). -/
theorem C2_links_cross_characterization (i1 j1 i2 j2 : Nat) :
    links_cross i1 j1 i2 j2 = true ↔
      (min i1 j1 < min i2 j2 ∧ min i2 j2 < max i1 j1 ∧ max i1 j1 < max i2 j2) ∨
      (min i2 j2 < min i1 j1 ∧ min i1 j1 < max i2 j2 ∧ max i2 j2 < max i1 j1) :=
  links_cross_char i1 j1 i2 j2

/-- C3: every engine state reachable from a cleared engine through the
public operations has a crossing-free link set: `is_planar()` is true
and `get_crossing_count()` is zero. -/
theorem C3_reachable_planar (s : PlanarState) (h : Reachable s) :
    is_planar s = true ∧ get_crossing_count s = 0 :=
  ⟨(pairs_planar_iff s.links).mpr (reachable_pairwise s h),
   (crossing_count_eq_zero_iff s.links).mpr (reachable_pairwise s h)⟩

theorem C3_witness :
    is_planar (add_link (set_sequence clearState [0, 1, 2, 3]) 0 2).1 = true ∧
    get_crossing_count
      (add_link (set_sequence clearState [0, 1, 2, 3]) 0 2).1 = 0 :=
  C3_reachable_planar _
    (Reachable.add _ 0 2 (Reachable.set_seq _ [0, 1, 2, 3] Reachable.cleared))

/-- C4: on every reachable engine state, `optimize_sequence()` is the
identity on the observable state: the sequence, the position index and
the link set all keep their values (crossings are counted on stored
position pairs, which a swap does not change, so every tentative swap
is reverted). -/
theorem C4_optimize_identity (s : PlanarState) (h : Reachable s) :
    optimize_sequence s = s :=
  optimize_id_of_consistent s (reachable_consistent s h)

theorem C4_witness :
    optimize_sequence (add_link (set_sequence clearState [0, 1, 2, 3]) 0 2).1 =
      (add_link (set_sequence clearState [0, 1, 2, 3]) 0 2).1 :=
  C4_optimize_identity _
    (Reachable.add _ 0 2 (Reachable.set_seq _ [0, 1, 2, 3] Reachable.cleared))

/-- C5: `optimize_sequence()` performs at most `sequence_length²` full
passes (also for empty and one-point sequences), and the crossing count
after the call is at most the crossing count before it. -/
theorem C5_optimizer_bound (s : PlanarState) :
    optimize_iterations s ≤ s.sequence.length * s.sequence.length ∧
    get_crossing_count (optimize_sequence s) ≤ get_crossing_count s := by
  constructor
  · exact optRun_count_le _ s
  · unfold get_crossing_count
    rw [optimize_links]

/-- C6 counterexample: on the engine whose sequence is [0,1,2,3] with
the accepted link (0,2), the call `is_planar_link 9 9` hits the
point-not-found condition (point 9 is absent), yet the caller receives
exactly the same plain `false` as the ordinary planarity rejection of
the crossing candidate (1,3); the source only logs a warning, so the
two negative outcomes are indistinguishable to the caller. -/
theorem C6_counterexample :
    mapFind 9 (add_link (set_sequence clearState [0, 1, 2, 3]) 0 2).1.position_map
      = none ∧
    is_planar_link (add_link (set_sequence clearState [0, 1, 2, 3]) 0 2).1 9 9
      = false ∧
    is_planar_link (add_link (set_sequence clearState [0, 1, 2, 3]) 0 2).1 1 3
      = false ∧
    is_planar_link (add_link (set_sequence clearState [0, 1, 2, 3]) 0 2).1 9 9 =
      is_planar_link (add_link (set_sequence clearState [0, 1, 2, 3]) 0 2).1 1 3 := by
  decide

/-- C6 (amended): when at least one of the two points is absent from
the sequence, `is_planar_link` returns the same plain `false` that an
ordinary planarity rejection produces; the condition is only logged,
not reported to the caller as a distinguishable error kind. -/
theorem C6_missing_point_plain_false (s : PlanarState) (f t : Nat)
    (h : mapFind f s.position_map = none ∨ mapFind t s.position_map = none) :
    is_planar_link s f t = false := by
  rcases h with h | h
  · cases ht : mapFind t s.position_map with
    | none => simp [is_planar_link, h, ht]
    | some tp => simp [is_planar_link, h, ht]
  · cases hf : mapFind f s.position_map with
    | none => simp [is_planar_link, h, hf]
    | some fp => simp [is_planar_link, h, hf]

theorem C6_witness :
    is_planar_link (set_sequence clearState [0, 1, 2, 3]) 9 9 = false :=
  C6_missing_point_plain_false (set_sequence clearState [0, 1, 2, 3]) 9 9
    (Or.inl (by decide))

/-- C7 counterexample: a lenient-mode callback over the engine with
sequence [0,1,2,3] and accepted link (0,2) accepts the crossing
connection (1,3) — `make_link` returns a defined handle — but the
engine's `add_link` rejected it (its result is only logged), so
`get_link_count()` stays at 1 instead of increasing by one. -/
theorem C7_counterexample :
    (make_link
      ⟨(add_link (set_sequence clearState [0, 1, 2, 3]) 0 2).1,
        [0, 1, 2, 3], false, true⟩ 1 3).2 = true ∧
    get_link_count
      (make_link
        ⟨(add_link (set_sequence clearState [0, 1, 2, 3]) 0 2).1,
          [0, 1, 2, 3], false, true⟩ 1 3).1.constraints = 1 ∧
    get_link_count
      (add_link (set_sequence clearState [0, 1, 2, 3]) 0 2).1 = 1 := by
  decide

/-- C7 (amended): a `make_link` call registers the link with the
Constraint Engine — `get_link_count()` increases by exactly one — iff
the connection is planar at call time (in which case both modes accept
it); when the connection is not planar, the count is unchanged even
though lenient mode still returns a defined handle (the engine-level
rejection is only logged), and strict mode returns the undefined
handle. -/
theorem C7_make_link_registration (cs : CallbackState) (f t : Nat) :
    (is_planar_link cs.constraints f t = true →
      (make_link cs f t).2 = true ∧
      get_link_count (make_link cs f t).1.constraints =
        get_link_count cs.constraints + 1) ∧
    (is_planar_link cs.constraints f t = false →
      get_link_count (make_link cs f t).1.constraints =
        get_link_count cs.constraints ∧
      ((make_link cs f t).2 = true ↔ cs.strict_planarity = false)) := by
  constructor
  · intro hp
    obtain ⟨fp, tp, hf, ht, heq⟩ := add_link_of_planar cs.constraints f t hp
    have hcond : (! is_planar_link cs.constraints f t
        && cs.strict_planarity) = false := by
      rw [hp, Bool.not_true, Bool.false_and]
    simp only [make_link, hcond, Bool.false_eq_true, if_false, heq]
    split
    · refine ⟨rfl, ?_⟩
      show (optimize_sequence _).links.length = cs.constraints.links.length + 1
      rw [optimize_links]
      simp [get_link_count]
    · refine ⟨rfl, ?_⟩
      show (cs.constraints.links ++ [(fp, tp)]).length =
        cs.constraints.links.length + 1
      simp
  · intro hp
    have hadd : add_link cs.constraints f t = (cs.constraints, false) :=
      add_link_of_not_planar cs.constraints f t hp
    by_cases hstrict : cs.strict_planarity = true
    · have hcond : (! is_planar_link cs.constraints f t
          && cs.strict_planarity) = true := by
        rw [hp, hstrict, Bool.not_false, Bool.true_and]
      have hml : make_link cs f t = (cs, false) := by
        simp [make_link, hcond]
      rw [hml]
      exact ⟨rfl, by simp [hstrict]⟩
    · rw [Bool.not_eq_true] at hstrict
      have hcond : (! is_planar_link cs.constraints f t
          && cs.strict_planarity) = false := by
        rw [hstrict, Bool.and_false]
      simp only [make_link, hcond, Bool.false_eq_true, if_false, hadd]
      split
      · refine ⟨?_, by simp [hstrict]⟩
        show (optimize_sequence cs.constraints).links.length =
          cs.constraints.links.length
        rw [optimize_links]
      · exact ⟨rfl, by simp [hstrict]⟩

theorem C7_witness :
    (make_link ⟨set_sequence clearState [0, 1], [0, 1], true, true⟩ 0 1).2
      = true ∧
    get_link_count
      (make_link ⟨set_sequence clearState [0, 1], [0, 1], true, true⟩
        0 1).1.constraints =
      get_link_count (set_sequence clearState [0, 1]) + 1 :=
  (C7_make_link_registration
    ⟨set_sequence clearState [0, 1], [0, 1], true, true⟩ 0 1).1 (by decide)

/-- C8: `set_sequence(points)` on a duplicate-free list leaves the
sequence equal to the list, the position index mapping exactly each
point of the list to its offset, and the link set empty. -/
theorem C8_set_sequence_spec (s : PlanarState) (seq : List Nat)
    (h : seq.Nodup) :
    (set_sequence s seq).sequence = seq ∧
    (∀ (i : Nat) (hi : i < seq.length),
      mapFind (seq.get ⟨i, hi⟩) (set_sequence s seq).position_map = some i) ∧
    (∀ p, p ∉ seq → mapFind p (set_sequence s seq).position_map = none) ∧
    (set_sequence s seq).links = [] := by
  refine ⟨rfl, ?_, ?_, rfl⟩
  · intro i hi
    show mapFind (seq.get ⟨i, hi⟩) (update_position_map seq) = some i
    have := upmFrom_find_mem seq 0 [] i hi h
    simpa [update_position_map] using this
  · intro p hp
    show mapFind p (update_position_map seq) = none
    rw [update_position_map, upmFrom_find_not_mem p seq 0 [] hp]
    rfl

theorem C8_witness :
    mapFind ([5, 7].get ⟨1, by decide⟩)
      (set_sequence clearState [5, 7]).position_map = some 1 ∧
    (set_sequence clearState [5, 7]).links = [] :=
  ⟨(C8_set_sequence_spec clearState [5, 7] (by decide)).2.1 1 (by decide),
   (C8_set_sequence_spec clearState [5, 7] (by decide)).2.2.2⟩

/-- C9: whenever `add_link(p, q)` succeeds, `is_planar()` immediately
after the call is true iff it was true immediately before it: the
accepted link crosses no pre-existing link, so it changes no pairwise
crossing among the others. -/
theorem C9_acceptance_monotonic (s : PlanarState) (f t : Nat)
    (h : (add_link s f t).2 = true) :
    (is_planar (add_link s f t).1 = true ↔ is_planar s = true) := by
  by_cases hp : is_planar_link s f t = true
  · obtain ⟨fp, tp, hf, ht, heq⟩ := add_link_of_planar s f t hp
    rw [heq]
    show pairs_planar (s.links ++ [(fp, tp)]) = true ↔
      pairs_planar s.links = true
    rw [pairs_planar_iff, pairs_planar_iff]
    apply pairwise_append_one
    rw [is_planar_link_eq_all s f t fp tp hf ht, List.all_eq_true] at hp
    intro m hm
    simpa [Bool.not_eq_true'] using hp m hm
  · rw [Bool.not_eq_true] at hp
    rw [add_link_of_not_planar s f t hp] at h
    simp at h

theorem C9_witness :
    is_planar (add_link (set_sequence clearState [0, 1, 2, 3]) 0 2).1 = true ↔
      is_planar (set_sequence clearState [0, 1, 2, 3]) = true :=
  C9_acceptance_monotonic (set_sequence clearState [0, 1, 2, 3]) 0 2
    (by decide)

/-- C10: a link never crosses itself, and a self-loop never crosses
anything in either argument position of `links_cross`. -/
theorem C10_no_self_crossing (a b c d : Nat) :
    links_cross a b a b = false ∧ links_cross a a c d = false ∧
    links_cross c d a a = false := by
  refine ⟨?_, ?_, ?_⟩ <;>
  · rw [Bool.eq_false_iff]
    intro h
    rw [links_cross_char] at h
    omega

example : links_cross 0 2 1 3 = true := by decide
example : links_cross 0 2 1 2 = false := by decide
example : crosses_spec_exactly_one 0 2 1 2 = true := by decide
example : (add_link (set_sequence clearState [0, 1, 2, 3]) 0 2).2 = true := by
  decide
example :
    (add_link (add_link (set_sequence clearState [0, 1, 2, 3]) 0 2).1 1 3).2
      = false := by decide

end PlanarGen
